import Mathlib

/-!
Shallow embedding of `gitlog2rss` (src/main.rs): a single-pass pipeline that
walks a git repository's history, turns each added/deleted/modified file of
each qualifying commit into one RSS feed item, and assembles a channel.

Rust strings are modelled as `List Char`; byte sequences (git paths) as
`List Nat`.  Machine integers (`i64`, offsets) are `Int`.  Rust panics and
propagated errors (`?`) are modelled by an `Except Abort` result, with
`Abort.crash` standing for a panic and `Abort.err` for a propagated `Err`.
-/

/-- Rust string slices (`&str` / `String`) are modelled as lists of characters. -/
abbrev RStr := List Char

/-- Model of `git2::Time`: seconds since epoch plus a UTC offset in minutes. -/
structure GitTime where
  seconds : Int
  offset : Int
deriving DecidableEq, Repr

/-- Model of `git2::Time`'s `Ord` instance: lexicographic on `(seconds, offset)`.
This is the key of `items.sort_unstable_by_key(|e| e.0)` (src/main.rs:261). -/
def timeLe (a b : GitTime) : Prop :=
  a.seconds < b.seconds ∨ (a.seconds = b.seconds ∧ a.offset ≤ b.offset)

instance (a b : GitTime) : Decidable (timeLe a b) := by
  unfold timeLe; exact inferInstance

theorem timeLe_refl (a : GitTime) : timeLe a a := Or.inr ⟨rfl, le_refl _⟩

theorem timeLe_total (a b : GitTime) : timeLe a b ∨ timeLe b a := by
  unfold timeLe
  rcases lt_trichotomy a.seconds b.seconds with h | h | h
  · exact Or.inl (Or.inl h)
  · rcases le_total a.offset b.offset with ho | ho
    · exact Or.inl (Or.inr ⟨h, ho⟩)
    · exact Or.inr (Or.inr ⟨h.symm, ho⟩)
  · exact Or.inr (Or.inl h)

/-- Generic insertion of an element into a list, keeping elements ordered by
`le`; used to give an executable model of the sorting steps. -/
def insertBy (le : α → α → Prop) [DecidableRel le] (x : α) : List α → List α
  | [] => [x]
  | y :: ys => if le x y then x :: y :: ys else y :: insertBy le x ys

/-- Insertion sort by `le`. -/
def sortBy (le : α → α → Prop) [DecidableRel le] : List α → List α
  | [] => []
  | x :: xs => insertBy le x (sortBy le xs)

theorem insertBy_perm (le : α → α → Prop) [DecidableRel le] (x : α) (l : List α) :
    (insertBy le x l).Perm (x :: l) := by
  induction l with
  | nil => exact List.Perm.refl _
  | cons y ys ih =>
    unfold insertBy
    by_cases h : le x y
    · simp [h]
    · simp only [h, if_false]
      exact ((ih.cons y).trans (List.Perm.swap x y ys))

theorem sortBy_perm (le : α → α → Prop) [DecidableRel le] (l : List α) :
    (sortBy le l).Perm l := by
  induction l with
  | nil => exact List.Perm.refl _
  | cons x xs ih =>
    exact (insertBy_perm le x (sortBy le xs)).trans (ih.cons x)

theorem insertBy_pairwise (le : α → α → Prop) [DecidableRel le]
    (total : ∀ a b, le a b ∨ le b a)
    (tr : ∀ a b c, le a b → le b c → le a c) (x : α) (l : List α)
    (h : l.Pairwise le) : (insertBy le x l).Pairwise le := by
  induction l with
  | nil => simp [insertBy]
  | cons y ys ih =>
    rcases List.pairwise_cons.mp h with ⟨hy, hys⟩
    unfold insertBy
    by_cases hxy : le x y
    · simp only [hxy, if_true]
      refine List.pairwise_cons.mpr ⟨?_, h⟩
      intro z hz
      rcases List.mem_cons.mp hz with rfl | hz
      · exact hxy
      · exact tr x y z hxy (hy z hz)
    · simp only [hxy, if_false]
      refine List.pairwise_cons.mpr ⟨?_, ih hys⟩
      intro z hz
      have hz' := (insertBy_perm le x ys).mem_iff.mp hz
      rcases List.mem_cons.mp hz' with rfl | hz'
      · rcases total y z with hc | hc
        · exact hc
        · exact absurd hc hxy
      · exact hy z hz'

theorem sortBy_pairwise (le : α → α → Prop) [DecidableRel le]
    (total : ∀ a b, le a b ∨ le b a)
    (tr : ∀ a b c, le a b → le b c → le a c) (l : List α) :
    (sortBy le l).Pairwise le := by
  induction l with
  | nil => simp [sortBy]
  | cons x xs ih => exact insertBy_pairwise le total tr x (sortBy le xs) ih

theorem timeLe_trans (a b c : GitTime) (h1 : timeLe a b) (h2 : timeLe b c) :
    timeLe a c := by
  unfold timeLe at *
  rcases h1 with h1 | ⟨h1, h1o⟩ <;> rcases h2 with h2 | ⟨h2, h2o⟩
  · exact Or.inl (h1.trans h2)
  · exact Or.inl (h2 ▸ h1)
  · exact Or.inl (h1 ▸ h2)
  · exact Or.inr ⟨h1.trans h2, h1o.trans h2o⟩

example : sortBy timeLe [⟨3,0⟩, ⟨1,0⟩, ⟨2,0⟩] = [⟨1,0⟩, ⟨2,0⟩, ⟨3,0⟩] := by decide

/-- Rust slicing `s[a..b]` on a string, modelled on the character list:
`none` models the out-of-bounds panic (`a > b` or `b > s.len()`). -/
def sliceRange (s : RStr) (a b : Nat) : Option RStr :=
  if a ≤ b ∧ b ≤ s.length then some ((s.drop a).take (b - a)) else none

/-- The literal suffix tested at src/main.rs:234. -/
def mdSuffix : RStr := ['.', 'm', 'd']

/-- URL path derivation (src/main.rs:231-239): if `path` starts with the
configured prefix, drop that many leading characters, else keep the path;
if the full path ends with `.md`, take `path[first..len-2]` and append
`html`.  `none` models the slice panic. -/
def urlPath (path pfx : RStr) : Option RStr :=
  let first := if pfx.isPrefixOf path then pfx.length else 0
  if mdSuffix.isSuffixOf path then
    (sliceRange path first (path.length - 2)).map (· ++ ['h', 't', 'm', 'l'])
  else
    sliceRange path first path.length

example : urlPath "a.md".toList "".toList = some "a.html".toList := by decide
example : urlPath "src/a.md".toList "src/".toList = some "a.html".toList := by decide
example : urlPath "a.txt".toList "x/".toList = some "a.txt".toList := by decide
example : urlPath "a.md".toList "a.md".toList = none := by decide
example : urlPath "ab.md".toList "ab.".toList = some "html".toList := by decide

/-- Model of an absolute URL (`url::Url`), kept in serialized form. -/
structure Url where
  s : RStr
deriving DecidableEq, Repr

/-- Everything up to and including the last `/` of a serialized URL. -/
def takeThruLastSlash (s : RStr) : RStr :=
  (s.reverse.dropWhile (· ≠ '/')).reverse

/-- Models `url::Url::join` (src/main.rs:253) restricted to the inputs this
program produces: a relative path reference (no leading `/`, no scheme) is
resolved against the base by replacing everything after the base's last
slash, per RFC 3986 relative resolution. -/
def urlJoin (base : Url) (rel : RStr) : Url :=
  ⟨takeThruLastSlash base.s ++ rel⟩

example : urlJoin ⟨"https://x/y/".toList⟩ "a.html".toList
    = ⟨"https://x/y/a.html".toList⟩ := by decide

/-- Models `str::replace(\"%p\", rep)` (src/main.rs:251): replace each
non-overlapping occurrence of the two-character token `%p`, left to right. -/
def replacePP (rep : RStr) : RStr → RStr
  | '%' :: 'p' :: rest => rep ++ replacePP rep rest
  | c :: rest => c :: replacePP rep rest
  | [] => []

example : replacePP "a.html".toList "New page %p".toList
    = "New page a.html".toList := by decide
example : replacePP "u".toList "%p and %p".toList = "u and u".toList := by decide

/-- UTF-8 validation and decoding of a byte sequence, as performed by Rust's
`Path::to_str` (src/main.rs:230): `none` exactly when the bytes are not
valid UTF-8 (continuation-byte structure, overlong encodings, surrogates
and out-of-range code points all rejected). -/
def utf8Decode : List Nat → Option (List Char)
  | [] => some []
  | b :: bs =>
    if b < 0x80 then
      (utf8Decode bs).map (Char.ofNat b :: ·)
    else if b < 0xC2 then
      none
    else if b < 0xE0 then
      match bs with
      | b2 :: bs2 =>
        if 0x80 ≤ b2 ∧ b2 < 0xC0 then
          (utf8Decode bs2).map (Char.ofNat ((b - 0xC0) * 0x40 + (b2 - 0x80)) :: ·)
        else none
      | [] => none
    else if b < 0xF0 then
      match bs with
      | b2 :: b3 :: bs3 =>
        if (0x80 ≤ b2 ∧ b2 < 0xC0) ∧ (0x80 ≤ b3 ∧ b3 < 0xC0)
            ∧ (b = 0xE0 → 0xA0 ≤ b2) ∧ (b = 0xED → b2 < 0xA0) then
          (utf8Decode bs3).map
            (Char.ofNat ((b - 0xE0) * 0x1000 + (b2 - 0x80) * 0x40 + (b3 - 0x80)) :: ·)
        else none
      | _ => none
    else if b < 0xF5 then
      match bs with
      | b2 :: b3 :: b4 :: bs4 =>
        if (0x80 ≤ b2 ∧ b2 < 0xC0) ∧ (0x80 ≤ b3 ∧ b3 < 0xC0) ∧ (0x80 ≤ b4 ∧ b4 < 0xC0)
            ∧ (b = 0xF0 → 0x90 ≤ b2) ∧ (b = 0xF4 → b2 < 0x90) then
          (utf8Decode bs4).map
            (Char.ofNat ((b - 0xF0) * 0x40000 + (b2 - 0x80) * 0x1000
              + (b3 - 0x80) * 0x40 + (b4 - 0x80)) :: ·)
        else none
      | _ => none
    else none

example : utf8Decode [0x61, 0x2E, 0x6D, 0x64] = some "a.md".toList := by decide
example : utf8Decode [0xFF] = none := by decide
example : utf8Decode [0xC3, 0xA9] = some "é".toList := by decide
example : utf8Decode [0xC0, 0x80] = none := by decide

/-- Civil date from a day count relative to 1970-01-01 (proleptic Gregorian),
as used by chrono's date arithmetic; returns `(year, month, day)`. -/
def civilFromDays (z : Int) : Int × Nat × Nat :=
  let z' := z + 719468
  let era := z'.fdiv 146097
  let doe := (z' - era * 146097).toNat
  let yoe := (doe - doe / 1460 + doe / 36524 - doe / 146096) / 365
  let y := era * 400 + yoe
  let doy := doe - (365 * yoe + yoe / 4 - yoe / 100)
  let mp := (5 * doy + 2) / 153
  let d := doy - (153 * mp + 2) / 5 + 1
  let m := if mp < 10 then mp + 3 else mp - 9
  (if m ≤ 2 then y + 1 else y, m, d)

example : civilFromDays 0 = (1970, 1, 1) := by decide

/-- Two-digit zero-padded decimal rendering. -/
def pad2 (n : Nat) : String :=
  if n < 10 then "0" ++ toString n else toString n

/-- Three-letter English weekday name, `0` = Sunday. -/
def dayName (w : Nat) : String :=
  match w with
  | 0 => "Sun" | 1 => "Mon" | 2 => "Tue" | 3 => "Wed"
  | 4 => "Thu" | 5 => "Fri" | _ => "Sat"

/-- Three-letter English month name, `1` = January. -/
def monthName (m : Nat) : String :=
  match m with
  | 1 => "Jan" | 2 => "Feb" | 3 => "Mar" | 4 => "Apr"
  | 5 => "May" | 6 => "Jun" | 7 => "Jul" | 8 => "Aug"
  | 9 => "Sep" | 10 => "Oct" | 11 => "Nov" | _ => "Dec"

/-- Model of `rfc822_time` (src/main.rs:34-41): format a git timestamp as an
RFC 2822 date string via chrono's `to_rfc2822`, in the original UTC offset.
`none` models the panic for an offset chrono's `FixedOffset::east_opt`
rejects (at least a whole day); chrono's far-year seconds bound is elided,
as no claim concerns it. -/
def rfc822Time (t : GitTime) : Option RStr :=
  if 1440 ≤ t.offset ∨ t.offset ≤ -1440 then none
  else
    let localSecs := t.seconds + t.offset * 60
    let days := localSecs.fdiv 86400
    let sod := (localSecs - days * 86400).toNat
    let ymd := civilFromDays days
    let w := ((days + 4).emod 7).toNat
    let absOff := t.offset.natAbs
    some ((dayName w ++ ", " ++ pad2 ymd.2.2 ++ " " ++ monthName ymd.2.1 ++ " "
      ++ toString ymd.1 ++ " " ++ pad2 (sod / 3600) ++ ":"
      ++ pad2 (sod % 3600 / 60) ++ ":" ++ pad2 (sod % 60) ++ " "
      ++ (if t.offset < 0 then "-" else "+")
      ++ pad2 (absOff / 60) ++ pad2 (absOff % 60)).toList)

example : rfc822Time ⟨0, 0⟩ = some "Thu, 01 Jan 1970 00:00:00 +0000".toList := by
  decide
example : rfc822Time ⟨1057049557, 120⟩
    = some "Tue, 01 Jul 2003 10:52:37 +0200".toList := by decide

/-- Model of `yaml_rust::Yaml`. -/
inductive Yaml where
  | real (s : RStr)
  | int (n : Int)
  | str (s : RStr)
  | bool (b : Bool)
  | arr (xs : List Yaml)
  | hash (es : List (Yaml × Yaml))
  | aliasRef (n : Nat)
  | null
  | badValue

/-- Model of `Yaml`'s `Index<&str>`: look the string key up in a hash,
`BadValue` for a missing key or a non-hash value. -/
def yamlIndex (y : Yaml) (k : RStr) : Yaml :=
  match y with
  | .hash es =>
    match es.find? (fun e => match e.1 with | .str s => decide (s = k) | _ => false) with
    | some e => e.2
    | none => .badValue
  | _ => .badValue

/-- Model of `Yaml::as_str`. -/
def yamlAsStr : Yaml → Option RStr
  | .str s => some s
  | _ => none

/-- Model of `Yaml::as_vec`. -/
def yamlAsVec : Yaml → Option (List Yaml)
  | .arr xs => some xs
  | _ => none

/-- Model of `Yaml::as_i64`. -/
def yamlAsI64 : Yaml → Option Int
  | .int n => some n
  | _ => none

/-- Drop leading ASCII spaces. -/
def dropSpaces (s : RStr) : RStr := s.dropWhile (· = ' ')

/-- Split off a leading run of ASCII digits. -/
def takeDigits (s : RStr) : RStr × RStr :=
  (s.takeWhile (·.isDigit), s.dropWhile (·.isDigit))

/-- Split off a leading run of ASCII letters. -/
def takeAlpha (s : RStr) : RStr × RStr :=
  (s.takeWhile (·.isAlpha), s.dropWhile (·.isAlpha))

/-- Decimal value of a digit run. -/
def digitsToNat (ds : RStr) : Nat :=
  ds.foldl (fun acc c => acc * 10 + (c.toNat - '0'.toNat)) 0

/-- Nanoseconds per duration unit, from humantime's documented unit table. -/
def humantimeUnitNanos (u : RStr) : Option Nat :=
  if u = "nsec".toList ∨ u = "ns".toList then some 1
  else if u = "usec".toList ∨ u = "us".toList then some 1000
  else if u = "msec".toList ∨ u = "ms".toList then some 1000000
  else if u = "seconds".toList ∨ u = "second".toList ∨ u = "secs".toList
      ∨ u = "sec".toList ∨ u = "s".toList then some 1000000000
  else if u = "minutes".toList ∨ u = "minute".toList ∨ u = "min".toList
      ∨ u = "mins".toList ∨ u = "m".toList then some 60000000000
  else if u = "hours".toList ∨ u = "hour".toList ∨ u = "hr".toList
      ∨ u = "hrs".toList ∨ u = "h".toList then some 3600000000000
  else if u = "days".toList ∨ u = "day".toList ∨ u = "d".toList then
    some 86400000000000
  else if u = "weeks".toList ∨ u = "week".toList ∨ u = "w".toList then
    some 604800000000000
  else if u = "months".toList ∨ u = "month".toList ∨ u = "M".toList then
    some 2630016000000000
  else if u = "years".toList ∨ u = "year".toList ∨ u = "y".toList then
    some 31557600000000000
  else none

/-- Fuel-driven loop of humantime's `parse_duration` grammar: a sequence of
`<number><unit>` tokens, optionally space-separated, summed in nanoseconds. -/
def humantimeLoop : Nat → RStr → Option Nat
  | 0, _ => none
  | fuel + 1, cs =>
    let cs' := dropSpaces cs
    if cs' = [] then some 0
    else
      let dr := takeDigits cs'
      if dr.1 = [] then none
      else
        let ur := takeAlpha (dropSpaces dr.2)
        match humantimeUnitNanos ur.1 with
        | none => none
        | some mult => (humantimeLoop fuel ur.2).map (digitsToNat dr.1 * mult + ·)

/-- Model of `humantime::parse_duration(s)?.as_secs()` (src/main.rs:278):
whole seconds of the parsed duration, truncating sub-second remainder. -/
def humantimeParse (s : RStr) : Option Nat :=
  (humantimeLoop (s.length + 1) s).map (· / 1000000000)

example : humantimeParse "2h".toList = some 7200 := by decide
example : humantimeParse "90m".toList = some 5400 := by decide
example : humantimeParse "2x".toList = none := by decide

/-- Abnormal termination: `crash` models a Rust panic, `err` a propagated
`Err` (the `?` operator / an explicit `return Err(..)`). -/
inductive Abort where
  | crash (msg : RStr)
  | err (msg : RStr)
deriving DecidableEq, Repr

instance {ε α : Type} [DecidableEq ε] [DecidableEq α] : DecidableEq (Except ε α) :=
  fun x y =>
    match x, y with
    | .ok a, .ok b =>
      if h : a = b then isTrue (by rw [h]) else isFalse (by intro he; cases he; exact h rfl)
    | .error a, .error b =>
      if h : a = b then isTrue (by rw [h]) else isFalse (by intro he; cases he; exact h rfl)
    | .ok _, .error _ => isFalse (by intro he; cases he)
    | .error _, .ok _ => isFalse (by intro he; cases he)

/-- Message of `Option::unwrap` on `None`. -/
def unwrapMsg : RStr := "called Option::unwrap() on a None value".toList

/-- Message of a string-slice range panic. -/
def sliceMsg : RStr := "slice index out of range".toList

/-- Model of the `ttl` channel field computation (src/main.rs:276-281):
integer config values are minutes verbatim; strings are parsed as humantime
durations and converted to whole minutes by integer division; a missing key
(`BadValue`) yields no field; anything else is a fatal config error. -/
def computeTtl (pd : RStr → Option Nat) (v : Yaml) : Except Abort (Option RStr) :=
  match v with
  | .int x => .ok (some (toString x).toList)
  | .str x =>
    match pd x with
    | some secs => .ok (some (toString (secs / 60)).toList)
    | none => .error (.err "time parse error".toList)
  | .badValue => .ok none
  | _ => .error (.err "Invalid value of config entry 'ttl'".toList)

example : computeTtl humantimeParse (.str "2h".toList) = .ok (some "120".toList) := by
  decide

/-- Model of `git2::Delta`, the per-file diff status. -/
inductive DeltaStatus where
  | unmodified | added | deleted | modified | renamed | copied
  | ignored | untracked | typechange | unreadable | conflicted
deriving DecidableEq, Repr

/-- Model of `git2::DiffFile`: only the path is consumed by the program.
`path()` returns `None` when the entry carries no path. -/
structure DeltaFile where
  path : Option (List Nat)
deriving DecidableEq, Repr

/-- Model of `git2::DiffDelta`: a status plus old and new file entries. -/
structure DeltaInfo where
  status : DeltaStatus
  oldFile : DeltaFile
  newFile : DeltaFile
deriving DecidableEq, Repr

/-- Model of an `rss::Item` as built at src/main.rs:244-254 (only the fields
the program sets). -/
structure RssItem where
  author : Option RStr
  pubDate : Option RStr
  title : Option RStr
  link : Option RStr
deriving DecidableEq, Repr

/-- Structural model of the log lines the pipeline emits (src/main.rs:157,
161, 209-215, 224-225, 257); the initial per-delta `trace!` is elided. -/
inductive LogMsg where
  | skipMerge (commitId : RStr)
  | skipNoRss (commitId : RStr)
  | unhandledStatus (status : DeltaStatus) (commitId : RStr)
      (oldPath newPath : Option (List Nat))
  | skipIgnored (path : List Nat) (commitId : RStr)
  | newItem (commitId : RStr) (path : RStr)
deriving DecidableEq, Repr

/-- The configuration-derived context threaded through the walk: parsed
config document, resolved strip prefix, parsed base URL and the compiled
ignore pathspec.  The pathspec matcher (`git2::Pathspec::matches_path`,
src/main.rs:223) is modelled as a boolean predicate on path bytes, since
its glob semantics live in libgit2. -/
structure Ctx where
  conf : Yaml
  pfx : RStr
  baseUrl : Url
  ign : Option (List Nat → Bool)

/-- Per-status dispatch of the delta loop (src/main.rs:192-218): which file
entry and which title-template key a delta uses, `none` for every status
other than Added/Deleted/Modified. -/
def classifyDelta (d : DeltaInfo) : Option (DeltaFile × RStr) :=
  match d.status with
  | .added => some (d.newFile, "item-title-page-new".toList)
  | .deleted => some (d.oldFile, "item-title-page-removed".toList)
  | .modified => some (d.newFile, "item-title-page-modified".toList)
  | _ => none

/-- Processing of one delta of one commit (the loop body, src/main.rs:182-258):
classify, unwrap the path, drop ignored paths, convert the path to UTF-8,
derive the URL path and build the feed item. -/
def processDelta (ctx : Ctx) (cid author adate : RStr) (d : DeltaInfo) :
    Except Abort (Option RssItem × List LogMsg) :=
  match classifyDelta d with
  | none =>
    .ok (none, [.unhandledStatus d.status cid d.oldFile.path d.newFile.path])
  | some (f, key) =>
    match f.path with
    | none => .error (.crash unwrapMsg)
    | some bs =>
      if (ctx.ign.map (fun g => g bs)).getD false then
        .ok (none, [.skipIgnored bs cid])
      else
        match utf8Decode bs with
        | none => .error (.crash unwrapMsg)
        | some pathStr =>
          match urlPath pathStr ctx.pfx with
          | none => .error (.crash sliceMsg)
          | some up =>
            .ok (some {
                author := some author,
                pubDate := some adate,
                title := (yamlAsStr (yamlIndex ctx.conf key)).map (replacePP up),
                link := some (urlJoin ctx.baseUrl up).s },
              [.newItem cid pathStr])

/-- Folding `processDelta` over a commit's deltas, pairing each produced item
with the commit's raw author time (src/main.rs:241-243). -/
def processDeltas (ctx : Ctx) (cid author adate : RStr) (when : GitTime) :
    List DeltaInfo → Except Abort (List (GitTime × RssItem) × List LogMsg)
  | [] => .ok ([], [])
  | d :: ds => do
    let r ← processDelta ctx cid author adate d
    let rest ← processDeltas ctx cid author adate when ds
    .ok ((r.1.map (fun it => (when, it))).toList ++ rest.1, r.2 ++ rest.2)

/-- The data of one commit as read off the repository handle: identity,
parent count, message, author identity and time, and the computed
tree-to-tree diff against the single parent (or the empty tree for a root
commit), already restricted by the diff options and path filters of
src/main.rs:116-124.  Diff computation itself lives in libgit2; its result
is the `deltas` field. -/
structure CommitData where
  id : RStr
  parentCount : Nat
  message : Option RStr
  authorName : Option RStr
  authorEmail : Option RStr
  authorWhen : GitTime
  deltas : List DeltaInfo

/-- The `no-rss` opt-out marker substring tested at src/main.rs:160. -/
def noRssMarker : RStr := "\nno-rss\n".toList

/-- Model of `str::contains(pat)` for a string pattern: `pat` occurs as a
contiguous substring of `hay`. -/
def containsSub (hay pat : RStr) : Bool :=
  pat.isPrefixOf hay ||
    match hay with
    | [] => false
    | _ :: rest => containsSub rest pat

/-- Processing of one commit of the walk (the loop body, src/main.rs:154-259):
skip merge commits, skip commits whose message contains the `no-rss` marker
substring, format the author date, build the author string, then process
every delta.  The returned boolean records whether the diff was computed. -/
def processCommit (ctx : Ctx) (c : CommitData) :
    Except Abort (List (GitTime × RssItem) × List LogMsg × Bool) :=
  if c.parentCount > 1 then .ok ([], [.skipMerge c.id], false)
  else if (c.message.map (fun m => containsSub m noRssMarker)).getD false then
    .ok ([], [.skipNoRss c.id], false)
  else
    match rfc822Time c.authorWhen with
    | none => .error (.crash "Timestamp with invalid offset".toList)
    | some adate =>
      match c.authorEmail, c.authorName with
      | some email, some name => do
        let author := email ++ " (".toList ++ name ++ ")".toList
        let r ← processDeltas ctx c.id author adate c.authorWhen c.deltas
        .ok (r.1, r.2, true)
      | _, _ => .error (.crash unwrapMsg)

/-- The final sorting step (src/main.rs:261): `sort_unstable_by_key(|e| e.0)`
sorts by the raw `git2::Time` key.  The Rust sort is unstable, so its only
guaranteed contract is a permutation that is non-decreasing in the key (see
`SortContract`); this executable stand-in realizes that contract with an
insertion sort. -/
def sortItems : List (GitTime × RssItem) → List (GitTime × RssItem) :=
  sortBy (fun a b => timeLe a.1 b.1)

/-- Sortedness of an item list by the raw timestamp key. -/
def SortedByTime (l : List (GitTime × RssItem)) : Prop :=
  l.Pairwise (fun a b => timeLe a.1 b.1)

instance (l : List (GitTime × RssItem)) : Decidable (SortedByTime l) := by
  unfold SortedByTime; exact inferInstance

/-- Everything `Vec::sort_unstable_by_key` guarantees about its result: it is
a permutation of the input that is sorted by the key.  The order of
equal-key elements is NOT part of the contract. -/
def SortContract (input output : List (GitTime × RssItem)) : Prop :=
  input.Perm output ∧ SortedByTime output

/-- Model of the assembled `rss::Channel` (only the fields the program sets). -/
structure Channel where
  title : RStr
  link : RStr
  description : RStr
  pubDate : Option RStr
  lastBuildDate : Option RStr
  language : Option RStr
  copyright : Option RStr
  managingEditor : Option RStr
  webmaster : Option RStr
  generator : Option RStr
  ttl : Option RStr
  skipHours : List RStr
  skipDays : List RStr
  items : List RssItem
deriving DecidableEq, Repr

/-- The `skip-hours` / `skip-days` computation (src/main.rs:282-301): absent
or non-array values give an empty list, non-integer entries are dropped,
integers are rendered in decimal. -/
def skipList (y : Yaml) : List RStr :=
  match yamlAsVec y with
  | none => []
  | some v => (v.filterMap yamlAsI64).map (fun n => (toString n).toList)

/-- Channel assembly (src/main.rs:264-303): required fields are unwrapped
from config (panic when missing), the publish date is the first item's
publish date, the last-build date the last item's, optional fields are
copied from config, and the TTL is computed by `computeTtl`.  Field
evaluation order follows the Rust argument order, so the required-field
panics fire before a TTL error. -/
def buildChannel (pd : RStr → Option Nat) (conf : Yaml) (items : List RssItem) :
    Except Abort Channel := do
  let title ← (yamlAsStr (yamlIndex conf "channel-title".toList)).elim
    (Except.error (.crash unwrapMsg)) Except.ok
  let link ← (yamlAsStr (yamlIndex conf "channel-link".toList)).elim
    (Except.error (.crash unwrapMsg)) Except.ok
  let descr ← (yamlAsStr (yamlIndex conf "channel-description".toList)).elim
    (Except.error (.crash unwrapMsg)) Except.ok
  let ttl ← computeTtl pd (yamlIndex conf "ttl".toList)
  .ok {
    title := title,
    link := link,
    description := descr,
    pubDate := (items.head?).bind (·.pubDate),
    lastBuildDate := (items.getLast?).bind (·.pubDate),
    language := yamlAsStr (yamlIndex conf "language".toList),
    copyright := yamlAsStr (yamlIndex conf "copyright".toList),
    managingEditor := yamlAsStr (yamlIndex conf "managing-editor".toList),
    webmaster := yamlAsStr (yamlIndex conf "webmaster".toList),
    generator := yamlAsStr (yamlIndex conf "generator".toList),
    ttl := ttl,
    skipHours := skipList (yamlIndex conf "skip-hours".toList),
    skipDays := skipList (yamlIndex conf "skip-days".toList),
    items := items }

/-- Folding `processCommit` over the walked commits (src/main.rs:154-259). -/
def processCommits (ctx : Ctx) :
    List CommitData → Except Abort (List (GitTime × RssItem) × List LogMsg)
  | [] => .ok ([], [])
  | c :: cs => do
    let r ← processCommit ctx c
    let rest ← processCommits ctx cs
    .ok (r.1 ++ rest.1, r.2.1 ++ rest.2)

/-- The whole run after configuration loading (src/main.rs:150-303): walk the
given commits, collect `(raw time, item)` pairs, sort them by the raw key,
drop the keys and assemble the channel. -/
def runFeed (pd : RStr → Option Nat) (ctx : Ctx) (commits : List CommitData) :
    Except Abort Channel := do
  let pairs ← processCommits ctx commits
  buildChannel pd ctx.conf ((sortItems pairs.1).map (·.2))

/-- A commit as seen by the revision walker: identity, parent identities and
commit time. -/
structure RepoCommit where
  id : Nat
  parents : List Nat
  commitTime : Int
deriving DecidableEq, Repr

/-- Models the walk configured at src/main.rs:152-154: `repo.revwalk()`
followed by `push_head()` with NO call to `set_sorting`, so libgit2's
default sorting `GIT_SORT_NONE` applies.  libgit2 documents this default as
git log's order — reverse chronological, i.e. newest first by commit time —
so the commits reachable from head come out sorted by commit time
descending. -/
def revwalkDefault (cs : List RepoCommit) : List RepoCommit :=
  sortBy (fun a b => b.commitTime ≤ a.commitTime) cs

/-- Follows the claim wording for C2: every ancestor is visited before its
descendants — no commit is followed by one of its parents. -/
def AncestorsFirst (l : List RepoCommit) : Prop :=
  l.Pairwise (fun a b => b.id ∉ a.parents)

instance (l : List RepoCommit) : Decidable (AncestorsFirst l) := by
  unfold AncestorsFirst; exact inferInstance

/-- Follows the claim wording for C2: commits come oldest to newest, ties
broken by commit time ascending — the walk is non-decreasing in commit
time. -/
def OldestFirst (l : List RepoCommit) : Prop :=
  l.Pairwise (fun a b => a.commitTime ≤ b.commitTime)

instance (l : List RepoCommit) : Decidable (OldestFirst l) := by
  unfold OldestFirst; exact inferInstance

/-- A minimal configuration document holding just the required channel
fields. -/
def exConf : Yaml :=
  .hash [(.str "channel-title".toList, .str "T".toList),
         (.str "channel-link".toList, .str "L".toList),
         (.str "channel-description".toList, .str "D".toList)]

/-- A context over `exConf` with empty strip prefix, base URL
`https://x/y/` and no ignore list. -/
def exCtx : Ctx :=
  { conf := exConf, pfx := [], baseUrl := ⟨"https://x/y/".toList⟩, ign := none }

/-- The bytes of the path `a.md`. -/
def exPathMd : List Nat := [0x61, 0x2E, 0x6D, 0x64]

/-- A root commit (no parents) adding `a.md`. -/
def exRootCommit : CommitData :=
  { id := "c1".toList, parentCount := 0, message := some "add page\n".toList,
    authorName := some "N".toList, authorEmail := some "e@x".toList,
    authorWhen := ⟨0, 0⟩,
    deltas := [⟨.added, ⟨some exPathMd⟩, ⟨some exPathMd⟩⟩] }

example : (runFeed humantimeParse exCtx [exRootCommit]).map
    (fun ch => ch.items.map (·.link)) = .ok [some "https://x/y/a.html".toList] := by
  decide
example : (runFeed humantimeParse exCtx [exRootCommit]).map
    (fun ch => (ch.title, ch.pubDate)) =
    .ok ("T".toList, some "Thu, 01 Jan 1970 00:00:00 +0000".toList) := by decide

/-- A merge commit (two parents) touching `a.md`. -/
def exMergeCommit : CommitData :=
  { id := "m1".toList, parentCount := 2, message := some "merge branch\n".toList,
    authorName := some "N".toList, authorEmail := some "e@x".toList,
    authorWhen := ⟨100, 0⟩,
    deltas := [⟨.added, ⟨some exPathMd⟩, ⟨some exPathMd⟩⟩] }

/-- C8: for every commit with more than one parent, the loop `continue`s
before any tree or diff is touched: no feed item is produced, only the
skip is logged, and the diff-computed flag stays false. -/
theorem C8_merge_commit_skipped (ctx : Ctx) (c : CommitData)
    (h : c.parentCount > 1) :
    processCommit ctx c = .ok ([], [.skipMerge c.id], false) := by
  unfold processCommit
  simp [h]

theorem C8_merge_commit_skipped_witness :
    exMergeCommit.parentCount > 1 ∧
    processCommit exCtx exMergeCommit = .ok ([], [.skipMerge exMergeCommit.id], false) :=
  ⟨by decide, C8_merge_commit_skipped exCtx exMergeCommit (by decide)⟩

/-- C9: a surviving delta (classified Added/Deleted/Modified, not ignored)
whose path bytes are not valid UTF-8 makes `path.to_str().unwrap()`
(src/main.rs:230) panic — the run crashes instead of returning an error or
skipping the delta. -/
theorem C9_non_utf8_path_crash (ctx : Ctx) (cid author adate : RStr)
    (d : DeltaInfo) (f : DeltaFile) (key : RStr) (bs : List Nat)
    (hclass : classifyDelta d = some (f, key))
    (hpath : f.path = some bs)
    (hign : (ctx.ign.map (fun g => g bs)).getD false = false)
    (hdec : utf8Decode bs = none) :
    processDelta ctx cid author adate d = .error (.crash unwrapMsg) := by
  unfold processDelta
  rw [hclass]
  simp [hpath, hign, hdec]

/-- A delta whose path is the single byte 0xFF, not valid UTF-8. -/
def exBadDelta : DeltaInfo := ⟨.added, ⟨some [0xFF]⟩, ⟨some [0xFF]⟩⟩

theorem C9_non_utf8_path_crash_witness :
    classifyDelta exBadDelta = some (exBadDelta.newFile, "item-title-page-new".toList) ∧
    utf8Decode [0xFF] = none ∧
    processDelta exCtx "c".toList "a".toList "d".toList exBadDelta
      = .error (.crash unwrapMsg) :=
  ⟨by decide, by decide,
    C9_non_utf8_path_crash exCtx "c".toList "a".toList "d".toList exBadDelta
      ⟨some [0xFF]⟩ "item-title-page-new".toList [0xFF]
      (by decide) (by decide) (by decide) (by decide)⟩

/-- C10: when a surviving delta's path ends in `.md` and starts with the
configured prefix, but the prefix length exceeds the path length minus 2
(for example a path exactly equal to a prefix ending in `.md`), the slice
`path[first..len-2]` (src/main.rs:235) has an inverted range: the URL
derivation yields no URL and the program panics. -/
theorem C10_md_slice_crash (ctx : Ctx) (cid author adate : RStr)
    (d : DeltaInfo) (f : DeltaFile) (key : RStr) (bs : List Nat) (pathStr : RStr)
    (hclass : classifyDelta d = some (f, key))
    (hpath : f.path = some bs)
    (hign : (ctx.ign.map (fun g => g bs)).getD false = false)
    (hdec : utf8Decode bs = some pathStr)
    (hmd : mdSuffix.isSuffixOf pathStr = true)
    (hpre : ctx.pfx.isPrefixOf pathStr = true)
    (hlen : pathStr.length - 2 < ctx.pfx.length) :
    urlPath pathStr ctx.pfx = none ∧
    processDelta ctx cid author adate d = .error (.crash sliceMsg) := by
  have hnot : ¬ (ctx.pfx.length ≤ pathStr.length - 2 ∧
      pathStr.length - 2 ≤ pathStr.length) := by omega
  have hurl : urlPath pathStr ctx.pfx = none := by
    unfold urlPath sliceRange
    simp [hpre, hmd]
    omega
  refine ⟨hurl, ?_⟩
  unfold processDelta
  rw [hclass]
  simp [hpath, hign, hdec, hurl]

/-- A delta adding the path `a.md` (as bytes). -/
def exMdDelta : DeltaInfo := ⟨.added, ⟨some exPathMd⟩, ⟨some exPathMd⟩⟩

/-- A context whose strip prefix is the whole path `a.md`. -/
def exCtxPfxMd : Ctx :=
  { conf := exConf, pfx := "a.md".toList, baseUrl := ⟨"https://x/y/".toList⟩,
    ign := none }

theorem C10_md_slice_crash_witness :
    ("a.md".toList.length - 2 < exCtxPfxMd.pfx.length) ∧
    urlPath "a.md".toList exCtxPfxMd.pfx = none ∧
    processDelta exCtxPfxMd "c".toList "a".toList "d".toList exMdDelta
      = .error (.crash sliceMsg) := by
  have h := C10_md_slice_crash exCtxPfxMd "c".toList "a".toList "d".toList
    exMdDelta ⟨some exPathMd⟩ "item-title-page-new".toList exPathMd "a.md".toList
    (by decide) (by decide) (by decide) (by decide) (by decide) (by decide) (by decide)
  exact ⟨by decide, h.1, h.2⟩

/-- C5: the per-delta dispatch — a created path uses the new file and the
`item-title-page-new` template, a deleted path the old file and
`item-title-page-removed`, a content change the new file and
`item-title-page-modified`; every other status yields no item, is logged
with the commit id and both file paths, and the remaining deltas are still
processed. -/
theorem C5_delta_dispatch (d : DeltaInfo) (ctx : Ctx) (cid author adate : RStr)
    (when : GitTime) (rest : List DeltaInfo) :
    (d.status = .added →
      classifyDelta d = some (d.newFile, "item-title-page-new".toList)) ∧
    (d.status = .deleted →
      classifyDelta d = some (d.oldFile, "item-title-page-removed".toList)) ∧
    (d.status = .modified →
      classifyDelta d = some (d.newFile, "item-title-page-modified".toList)) ∧
    (d.status ≠ .added → d.status ≠ .deleted → d.status ≠ .modified →
      classifyDelta d = none ∧
      processDelta ctx cid author adate d =
        .ok (none, [.unhandledStatus d.status cid d.oldFile.path d.newFile.path]) ∧
      processDeltas ctx cid author adate when (d :: rest) =
        (processDeltas ctx cid author adate when rest).map
          (fun r =>
            (r.1, .unhandledStatus d.status cid d.oldFile.path d.newFile.path :: r.2))) := by
  refine ⟨?_, ?_, ?_, ?_⟩
  · intro h; unfold classifyDelta; rw [h]
  · intro h; unfold classifyDelta; rw [h]
  · intro h; unfold classifyDelta; rw [h]
  · intro h1 h2 h3
    have hcl : classifyDelta d = none := by
      unfold classifyDelta
      cases hs : d.status <;> simp_all
    have hpd : processDelta ctx cid author adate d =
        .ok (none, [.unhandledStatus d.status cid d.oldFile.path d.newFile.path]) := by
      unfold processDelta
      rw [hcl]
    refine ⟨hcl, hpd, ?_⟩
    show (do
      let r ← processDelta ctx cid author adate d
      let rest' ← processDeltas ctx cid author adate when rest
      Except.ok ((r.1.map (fun it => (when, it))).toList ++ rest'.1, r.2 ++ rest'.2)) = _
    rw [hpd]
    cases hr : processDeltas ctx cid author adate when rest <;>
      simp [Except.map, Except.bind, Bind.bind]

/-- A delta with an unhandled status (a rename). -/
def exRenDelta : DeltaInfo :=
  ⟨.renamed, ⟨some [0x61]⟩, ⟨some [0x62]⟩⟩

theorem C5_delta_dispatch_witness :
    classifyDelta exMdDelta = some (exMdDelta.newFile, "item-title-page-new".toList) ∧
    classifyDelta exRenDelta = none ∧
    processDelta exCtx "c".toList "a".toList "d".toList exRenDelta =
      .ok (none, [.unhandledStatus exRenDelta.status "c".toList
        exRenDelta.oldFile.path exRenDelta.newFile.path]) ∧
    processDeltas exCtx "c".toList "a".toList "d".toList ⟨0, 0⟩ [exRenDelta, exMdDelta] =
      (processDeltas exCtx "c".toList "a".toList "d".toList ⟨0, 0⟩ [exMdDelta]).map
        (fun r => (r.1, .unhandledStatus exRenDelta.status "c".toList
          exRenDelta.oldFile.path exRenDelta.newFile.path :: r.2)) := by
  have h4 := (C5_delta_dispatch exRenDelta exCtx "c".toList "a".toList "d".toList
    ⟨0, 0⟩ [exMdDelta]).2.2.2 (by decide) (by decide) (by decide)
  exact ⟨(C5_delta_dispatch exMdDelta exCtx "c".toList "a".toList "d".toList
    ⟨0, 0⟩ []).1 rfl, h4.1, h4.2.1, h4.2.2⟩

/-- A configuration like `exConf` but with a boolean `ttl` entry. -/
def exConfBadTtl : Yaml :=
  .hash [(.str "channel-title".toList, .str "T".toList),
         (.str "channel-link".toList, .str "L".toList),
         (.str "channel-description".toList, .str "D".toList),
         (.str "ttl".toList, .bool true)]

/-- C6: the channel TTL — an integer config value is used as minutes
directly; a duration string is parsed and converted to whole minutes by
truncating integer division (`"2h"` gives `"120"`); an absent value
(`BadValue`) gives no TTL field; any other value type is a fatal error,
which aborts channel assembly (and with it the run). -/
theorem C6_ttl_computation (pd : RStr → Option Nat) (n : Int) (s : RStr)
    (secs : Nat) (y : Yaml) (hs : pd s = some secs)
    (hy1 : ∀ m : Int, y ≠ .int m) (hy2 : ∀ t : RStr, y ≠ .str t)
    (hy3 : y ≠ .badValue) :
    computeTtl pd (.int n) = .ok (some (toString n).toList) ∧
    computeTtl pd (.str s) = .ok (some (toString (secs / 60)).toList) ∧
    computeTtl pd .badValue = .ok none ∧
    (∃ e, computeTtl pd y = .error e) ∧
    computeTtl humantimeParse (.str "2h".toList) = .ok (some "120".toList) ∧
    (∃ e, buildChannel humantimeParse exConfBadTtl [] = .error e) := by
  refine ⟨rfl, ?_, rfl, ?_, by decide, ?_⟩
  · unfold computeTtl
    simp [hs]
  · cases y with
    | int m => exact absurd rfl (hy1 m)
    | str t => exact absurd rfl (hy2 t)
    | badValue => exact absurd rfl hy3
    | real r => exact ⟨_, rfl⟩
    | bool b => exact ⟨_, rfl⟩
    | arr xs => exact ⟨_, rfl⟩
    | hash es => exact ⟨_, rfl⟩
    | aliasRef a => exact ⟨_, rfl⟩
    | null => exact ⟨_, rfl⟩
  · exact ⟨.err "Invalid value of config entry 'ttl'".toList, by decide⟩

theorem C6_ttl_computation_witness :
    computeTtl humantimeParse (.int 7) = .ok (some "7".toList) ∧
    computeTtl humantimeParse (.str "2h".toList) = .ok (some "120".toList) ∧
    computeTtl humantimeParse .badValue = .ok none ∧
    (∃ e, computeTtl humantimeParse (.bool true) = .error e) := by
  have h := C6_ttl_computation humantimeParse 7 "2h".toList 7200 (.bool true)
    (by decide) (fun m => by simp) (fun t => by simp) (by simp)
  exact ⟨h.1, h.2.2.2.2.1, h.2.2.1, h.2.2.2.1⟩

/-- C3 (amended): a commit is opted out iff its message contains the
substring `"\nno-rss\n"` — a full `no-rss` line that is neither the first
line of the message nor an unterminated last line.  Such a commit produces
no feed item and is only logged as skipped. -/
theorem C3_no_rss_substring_skip (ctx : Ctx) (c : CommitData)
    (hp : c.parentCount ≤ 1)
    (hmark : (c.message.map (fun m => containsSub m noRssMarker)).getD false = true) :
    processCommit ctx c = .ok ([], [.skipNoRss c.id], false) := by
  have hnp : ¬ c.parentCount > 1 := by omega
  unfold processCommit
  simp [hnp, hmark]

/-- The spec scenario: one-parent commit whose message body is exactly
`"fix bug\nno-rss\n"`, touching `a.md`. -/
def exNoRssCommit : CommitData :=
  { id := "c2".toList, parentCount := 1,
    message := some "fix bug\nno-rss\n".toList,
    authorName := some "N".toList, authorEmail := some "e@x".toList,
    authorWhen := ⟨10, 0⟩,
    deltas := [⟨.added, ⟨some exPathMd⟩, ⟨some exPathMd⟩⟩] }

theorem C3_no_rss_substring_skip_witness :
    exNoRssCommit.parentCount ≤ 1 ∧
    (exNoRssCommit.message.map (fun m => containsSub m noRssMarker)).getD false = true ∧
    processCommit exCtx exNoRssCommit = .ok ([], [.skipNoRss exNoRssCommit.id], false) :=
  ⟨by decide, by decide,
    C3_no_rss_substring_skip exCtx exNoRssCommit (by decide) (by decide)⟩

/-- A commit whose message's FIRST line consists solely of `no-rss`. -/
def exFirstLineNoRss : CommitData :=
  { id := "c3".toList, parentCount := 1,
    message := some "no-rss\nupdate page\n".toList,
    authorName := some "N".toList, authorEmail := some "e@x".toList,
    authorWhen := ⟨20, 0⟩,
    deltas := [⟨.added, ⟨some exPathMd⟩, ⟨some exPathMd⟩⟩] }

/-- C3 counterexample: a message whose first line consists solely of
`no-rss` is NOT skipped — `msg.contains("\nno-rss\n")` needs a newline
before the marker, so this commit still produces one feed item, refuting
the claim that a first-line marker suppresses the commit. -/
theorem C3_first_line_not_matched :
    (exFirstLineNoRss.message.map (fun m => m.takeWhile (· ≠ '\n')))
      = some "no-rss".toList ∧
    (exFirstLineNoRss.message.map (fun m => containsSub m noRssMarker)).getD false
      = false ∧
    (processCommit exCtx exFirstLineNoRss).map (fun r => (r.1.length, r.2.2))
      = .ok (1, true) := by
  refine ⟨by decide, by decide, by decide⟩

/-- The two-commit repository used against C2: a root commit and its child,
with increasing commit times. -/
def exParentCommit : RepoCommit := ⟨1, [], 10⟩

/-- Child of `exParentCommit`, committed later. -/
def exChildCommit : RepoCommit := ⟨2, [1], 20⟩

/-- C2 counterexample: with libgit2's default sorting the child (newest)
comes out first, so the walk is neither ancestor-before-descendant nor
non-decreasing in commit time, refuting the claimed oldest-to-newest
order. -/
theorem C2_default_order_not_oldest_first :
    revwalkDefault [exParentCommit, exChildCommit]
      = [exChildCommit, exParentCommit] ∧
    ¬ AncestorsFirst (revwalkDefault [exParentCommit, exChildCommit]) ∧
    ¬ OldestFirst (revwalkDefault [exParentCommit, exChildCommit]) := by
  refine ⟨by decide, by decide, by decide⟩

/-- C2 (amended): the walker yields the commits reachable from head in
libgit2's default revwalk order — reverse chronological, newest first:
the output is a permutation of the reachable set that is non-increasing in
commit time. -/
theorem C2_walk_newest_first (cs : List RepoCommit) :
    (revwalkDefault cs).Perm cs ∧
    (revwalkDefault cs).Pairwise (fun a b => b.commitTime ≤ a.commitTime) := by
  constructor
  · exact sortBy_perm _ cs
  · exact sortBy_pairwise _ (fun a b => le_total b.commitTime a.commitTime)
      (fun a b c h1 h2 => le_trans h2 h1) cs

/-- A fixed raw timestamp shared by the two items below. -/
def exT : GitTime := ⟨0, 0⟩

/-- Two distinguishable items sharing one raw timestamp. -/
def exItemA : RssItem :=
  { author := none, pubDate := none, title := some "a".toList, link := none }

/-- Second item with the same timestamp as `exItemA`'s pair. -/
def exItemB : RssItem :=
  { author := none, pubDate := none, title := some "b".toList, link := none }

/-- C1: `sort_unstable_by_key` only guarantees a key-sorted permutation
(`SortContract`); on a list with two equal-key items BOTH relative orders
satisfy that contract, so the code does not guarantee the stable,
encounter-order-preserving sort the claim states. -/
theorem C1_equal_key_order_unspecified :
    SortContract [(exT, exItemA), (exT, exItemB)]
      [(exT, exItemA), (exT, exItemB)] ∧
    SortContract [(exT, exItemA), (exT, exItemB)]
      [(exT, exItemB), (exT, exItemA)] ∧
    [(exT, exItemA), (exT, exItemB)]
      ≠ [(exT, exItemB), (exT, exItemA)] := by
  refine ⟨⟨List.Perm.refl _, by decide⟩,
    ⟨List.Perm.swap (exT, exItemB) (exT, exItemA) [], by decide⟩, by decide⟩

/-- Follows the claim wording for C4, for comparison with the code's
`urlPath`: FIRST strip the prefix, THEN test the `.md` suffix on the
stripped result and replace it (reusing the dot) with `html`. -/
def urlPathClaimed (path pfx : RStr) : RStr :=
  let r := if pfx.isPrefixOf path then path.drop pfx.length else path
  if mdSuffix.isSuffixOf r then r.take (r.length - 2) ++ ['h', 't', 'm', 'l'] else r

/-- C4 counterexample: for path `ab.md` with prefix `ab.` the claim's
strip-then-rewrite algorithm yields `md` (the stripped remainder does not
end in `.md`), but the code tests `.md` on the FULL path before stripping
and yields `html` — so the claimed mapping `prefix ++ X ↦ X` (with the
rewrite on the result) is false at this input. -/
theorem C4_md_check_precedes_strip :
    urlPathClaimed "ab.md".toList "ab.".toList = "md".toList ∧
    urlPath "ab.md".toList "ab.".toList = some "html".toList ∧
    ("md".toList : RStr) ≠ "html".toList := by
  refine ⟨by decide, by decide, by decide⟩

/-- C4 (amended): the `.md` test is applied to the full path before prefix
stripping — when the stripped remainder itself ends in `.md` (length ≥ 3)
the result is exactly the remainder with `md` replaced by `html`; a
prefixed path not ending in `.md` maps to the bare remainder; a path not
starting with the prefix is used unmodified apart from the same rewrite;
and the root-commit scenario (`a.md`, prefix `""`, base `https://x/y/`)
yields one Added item with link `https://x/y/a.html`. -/
theorem C4_url_derivation (pfx X path : RStr) :
    (mdSuffix.isSuffixOf X = true →
      urlPath (pfx ++ X) pfx
        = some (X.take (X.length - 2) ++ ['h', 't', 'm', 'l'])) ∧
    (mdSuffix.isSuffixOf (pfx ++ X) = false →
      urlPath (pfx ++ X) pfx = some X) ∧
    (pfx.isPrefixOf path = false →
      urlPath path pfx
        = if mdSuffix.isSuffixOf path = true
          then some (path.take (path.length - 2) ++ ['h', 't', 'm', 'l'])
          else some path) ∧
    (runFeed humantimeParse exCtx [exRootCommit]).map
      (fun ch => ch.items.map (·.link)) = .ok [some "https://x/y/a.html".toList] := by
  refine ⟨?_, ?_, ?_, by decide⟩
  · intro hmd
    have hx3 : 3 ≤ X.length := (List.isSuffixOf_iff_suffix.mp hmd).length_le
    have hpre : pfx.isPrefixOf (pfx ++ X) = true :=
      List.isPrefixOf_iff_prefix.mpr (List.prefix_append pfx X)
    have hmdp : mdSuffix.isSuffixOf (pfx ++ X) = true :=
      List.isSuffixOf_iff_suffix.mpr
        ((List.isSuffixOf_iff_suffix.mp hmd).trans (List.suffix_append pfx X))
    have hc1 : pfx.length ≤ pfx.length + X.length - 2 := by omega
    have hc2 : pfx.length + X.length - 2 ≤ pfx.length + X.length := by omega
    have harith : pfx.length + X.length - 2 - pfx.length = X.length - 2 := by omega
    unfold urlPath sliceRange
    simp [hpre, hmdp, List.length_append, hc1, hc2, List.drop_left, harith]
  · intro hnmd
    have hpre : pfx.isPrefixOf (pfx ++ X) = true :=
      List.isPrefixOf_iff_prefix.mpr (List.prefix_append pfx X)
    have hc1 : pfx.length ≤ pfx.length + X.length := by omega
    have harith : pfx.length + X.length - pfx.length = X.length := by omega
    unfold urlPath sliceRange
    simp [hpre, hnmd, List.length_append, hc1, List.drop_left, harith]
  · intro hnp
    unfold urlPath sliceRange
    by_cases hmd : mdSuffix.isSuffixOf path = true
    · simp [hnp, hmd]
    · simp [hnp, hmd]

theorem C4_url_derivation_witness :
    urlPath "p/a.md".toList "p/".toList = some "a.html".toList ∧
    urlPath "p/a.txt".toList "p/".toList = some "a.txt".toList ∧
    urlPath "b.md".toList "p/".toList = some "b.html".toList := by
  refine ⟨?_, ?_, ?_⟩
  · exact (C4_url_derivation "p/".toList "a.md".toList []).1 (by decide)
  · exact (C4_url_derivation "p/".toList "a.txt".toList []).2.1 (by decide)
  · have h := (C4_url_derivation "p/".toList [] "b.md".toList).2.2.1 (by decide)
    rw [h]; decide

theorem pairwise_head_le {α : Type} (R : α → α → Prop) (hrefl : ∀ a, R a a)
    (a : α) (t : List α) (hp : (a :: t).Pairwise R) :
    ∀ x ∈ a :: t, R a x := by
  intro x hx
  rcases List.mem_cons.mp hx with rfl | hx'
  · exact hrefl x
  · exact (List.pairwise_cons.mp hp).1 x hx'

theorem pairwise_le_getLast {α : Type} (R : α → α → Prop) (hrefl : ∀ a, R a a) :
    ∀ (l : List α) (hne : l ≠ []) (hp : l.Pairwise R) (x : α),
      x ∈ l → R x (l.getLast hne)
  | [], hne, _, _, _ => absurd rfl hne
  | [a], _, _hp, x, hx => by
    rcases List.mem_singleton.mp hx with rfl
    simpa using hrefl x
  | a :: b :: t, _, hpw, x, hx => by
    rcases List.pairwise_cons.mp hpw with ⟨ha, hp'⟩
    have hlast : (a :: b :: t).getLast (by simp) = (b :: t).getLast (by simp) :=
      List.getLast_cons (by simp)
    rcases List.mem_cons.mp hx with rfl | hx'
    · rw [hlast]
      exact ha _ (List.getLast_mem _)
    · rw [hlast]
      exact pairwise_le_getLast R hrefl (b :: t) (by simp) hp' x hx'

/-- C7: when the required channel fields are present and the TTL entry is
valid, the assembled channel's publish date is the formatted publish date
of an item with minimal raw timestamp and the last-build date that of an
item with maximal raw timestamp; with zero items both derived dates are
absent while title, link and description are still emitted. -/
theorem C7_channel_dates (pd : RStr → Option Nat) (conf : Yaml) (t l dsc : RStr)
    (o : Option RStr) (pairs : List (GitTime × RssItem))
    (ht : yamlAsStr (yamlIndex conf "channel-title".toList) = some t)
    (hl : yamlAsStr (yamlIndex conf "channel-link".toList) = some l)
    (hd : yamlAsStr (yamlIndex conf "channel-description".toList) = some dsc)
    (httl : computeTtl pd (yamlIndex conf "ttl".toList) = .ok o) :
    (pairs = [] →
      ∃ ch, buildChannel pd conf ((sortItems pairs).map (·.2)) = .ok ch ∧
        ch.pubDate = none ∧ ch.lastBuildDate = none ∧
        ch.title = t ∧ ch.link = l ∧ ch.description = dsc) ∧
    (pairs ≠ [] →
      ∃ ch pmin pmax,
        buildChannel pd conf ((sortItems pairs).map (·.2)) = .ok ch ∧
        pmin ∈ pairs ∧ pmax ∈ pairs ∧
        (∀ q ∈ pairs, timeLe pmin.1 q.1) ∧ (∀ q ∈ pairs, timeLe q.1 pmax.1) ∧
        ch.pubDate = pmin.2.pubDate ∧ ch.lastBuildDate = pmax.2.pubDate) := by
  have hbc : ∀ items : List RssItem, buildChannel pd conf items = .ok {
      title := t, link := l, description := dsc,
      pubDate := items.head?.bind (·.pubDate),
      lastBuildDate := items.getLast?.bind (·.pubDate),
      language := yamlAsStr (yamlIndex conf "language".toList),
      copyright := yamlAsStr (yamlIndex conf "copyright".toList),
      managingEditor := yamlAsStr (yamlIndex conf "managing-editor".toList),
      webmaster := yamlAsStr (yamlIndex conf "webmaster".toList),
      generator := yamlAsStr (yamlIndex conf "generator".toList),
      ttl := o,
      skipHours := skipList (yamlIndex conf "skip-hours".toList),
      skipDays := skipList (yamlIndex conf "skip-days".toList),
      items := items } := by
    intro items
    unfold buildChannel
    rw [ht, hl, hd, httl]
    rfl
  constructor
  · intro hemp
    subst hemp
    exact ⟨_, hbc _, rfl, rfl, rfl, rfl, rfl⟩
  · intro hne
    have hperm : (sortItems pairs).Perm pairs := sortBy_perm _ pairs
    have hpw : (sortItems pairs).Pairwise (fun a b => timeLe a.1 b.1) :=
      sortBy_pairwise _ (fun a b => timeLe_total a.1 b.1)
        (fun a b c h1 h2 => timeLe_trans a.1 b.1 c.1 h1 h2) pairs
    have hsne : sortItems pairs ≠ [] := by
      intro h0
      apply hne
      have := hperm.length_eq
      rw [h0] at this
      exact List.eq_nil_of_length_eq_zero this.symm
    rcases List.exists_cons_of_ne_nil hsne with ⟨p, rest, hcons⟩
    have hpmem : p ∈ pairs := hperm.mem_iff.mp (by rw [hcons]; exact List.mem_cons_self p rest)
    have hmin : ∀ q ∈ pairs, timeLe p.1 q.1 := by
      intro q hq
      have hqs : q ∈ sortItems pairs := hperm.mem_iff.mpr hq
      rw [hcons] at hqs hpw
      exact pairwise_head_le (fun a b => timeLe a.1 b.1) (fun a => timeLe_refl a.1) p rest hpw q hqs
    have hlastmem : (sortItems pairs).getLast hsne ∈ pairs :=
      hperm.mem_iff.mp (List.getLast_mem hsne)
    have hmax : ∀ q ∈ pairs, timeLe q.1 ((sortItems pairs).getLast hsne).1 := by
      intro q hq
      exact pairwise_le_getLast (fun a b => timeLe a.1 b.1) (fun a => timeLe_refl a.1) (sortItems pairs) hsne hpw q
        (hperm.mem_iff.mpr hq)
    refine ⟨_, p, (sortItems pairs).getLast hsne, hbc _, hpmem, hlastmem, hmin, hmax, ?_, ?_⟩
    · show ((sortItems pairs).map (·.2)).head?.bind (·.pubDate) = p.2.pubDate
      rw [hcons]
      rfl
    · show ((sortItems pairs).map (·.2)).getLast?.bind (·.pubDate)
        = ((sortItems pairs).getLast hsne).2.pubDate
      rw [List.getLast?_map, List.getLast?_eq_getLast_of_ne_nil hsne]
      rfl

/-- Two timestamped items, encountered newer-first. -/
def exPairs : List (GitTime × RssItem) :=
  [(⟨5, 0⟩, { author := none, pubDate := some "later".toList,
              title := none, link := none }),
   (⟨3, 0⟩, { author := none, pubDate := some "earlier".toList,
              title := none, link := none })]

theorem C7_channel_dates_witness :
    (∃ ch, buildChannel humantimeParse exConf
        ((sortItems ([] : List (GitTime × RssItem))).map (·.2)) = .ok ch ∧
      ch.pubDate = none ∧ ch.lastBuildDate = none ∧
      ch.title = "T".toList ∧ ch.link = "L".toList ∧ ch.description = "D".toList) ∧
    (∃ ch pmin pmax, buildChannel humantimeParse exConf
        ((sortItems exPairs).map (·.2)) = .ok ch ∧
      pmin ∈ exPairs ∧ pmax ∈ exPairs ∧
      (∀ q ∈ exPairs, timeLe pmin.1 q.1) ∧ (∀ q ∈ exPairs, timeLe q.1 pmax.1) ∧
      ch.pubDate = pmin.2.pubDate ∧ ch.lastBuildDate = pmax.2.pubDate) :=
  ⟨(C7_channel_dates humantimeParse exConf "T".toList "L".toList "D".toList none
      [] rfl rfl rfl rfl).1 rfl,
   (C7_channel_dates humantimeParse exConf "T".toList "L".toList "D".toList none
      exPairs rfl rfl rfl rfl).2 (by decide)⟩
